import Mathlib

/-!
# Subleq interpreter (`src/interpreters/subleq/subleq.c`)

A shallow embedding of `subleq_interpreter` and theorems about it.

Modelling conventions.

* A C `long` is a 64-bit two's-complement integer, represented by an `Int`.
  The two subtractions of the loop (`0 - operand`, `mem[b] - operand`) are the
  only places where a `long` can overflow; they are modelled by `subLong`,
  which wraps modulo `2^64`.  Signed overflow is undefined behaviour in C: the
  model fixes the two's-complement result there, and agrees with the
  mathematical difference whenever that fits in a `long` (`subLong_of_isLong`).
* A `size_t` is represented by a `Nat`.  None of the `size_t` computations of
  the loop can wrap: `iterations++`, `out_size++` and `in_ptr++` are guarded by
  a strict comparison with another `size_t`, and `ip + 2`, `ip += 3` are
  bounded by `code_length`, the length of an array that exists in memory.
* `mem`, `output` and `input` are lists read with `Option`-returning indexing:
  an access outside the array is the distinct outcome `Err.OutOfBounds`
  (undefined behaviour in C), never a silent default.
* Allocation is assumed to succeed (the fatal `exit(1)` path is outside the
  model), and the caller passes non-null `final_mem_out` and
  `final_mem_len_out`.  `init` gives the output buffer `max_output_length`
  cells, which is what line 45 allocates as long as the byte count
  `max_output_length * sizeof(long)` does not wrap, that is for
  `max_output_length < 2^61`.  `init_alloc` sizes the buffer from the wrapped
  byte count, as the source computes it; the two agree below `2^61`
  (`init_alloc_eq_init`), and the values returned are those of `init` in
  either case.  The program is an array that exists in memory, so
  `code_length * sizeof(long)` cannot wrap.
* The `while` loop is iterated with fuel; running out of fuel is the distinct
  outcome `Err.OutOfFuel`.  `while_loop_total` shows that `max_iter + 1` units
  of fuel, the amount `subleq_interpreter` supplies, always suffice.
-/

namespace Subleq

/-- Reduction of an integer to the range of a 64-bit `long`,
`[-2^63, 2^63)`. -/
def wrapLong (x : Int) : Int :=
  (x + 9223372036854775808) % 18446744073709551616 - 9223372036854775808

/-- Subtraction of two `long` values as the machine performs it. -/
def subLong (x y : Int) : Int := wrapLong (x - y)

/-- The values a `long` can hold. -/
def isLong (x : Int) : Prop := -9223372036854775808 ≤ x ∧ x < 9223372036854775808

instance (x : Int) : Decidable (isLong x) := by
  unfold isLong; infer_instance

deriving instance DecidableEq for Except

/-- Value of `*interp_status` after a normal finish. -/
def Completed : Int := 0

/-- Value of `*interp_status` after an error (out-of-bound address, output
capacity reached or iteration limit reached). -/
def Faulted : Int := -1

/-- Outcomes of the model that are not a return of the C function. -/
inductive Err where
  /-- An array was indexed outside its allocation. -/
  | OutOfBounds
  /-- The fuel given to the loop was used up before the loop exited. -/
  | OutOfFuel
  deriving DecidableEq, Repr

/-- The local variables of `subleq_interpreter` that the loop reads and
writes (lines 38-61). -/
structure State where
  /-- The working copy of the program, `code_length` cells. -/
  mem : List Int
  /-- The output buffer, `max_output_length` cells. -/
  output : List Int
  out_size : Nat
  in_ptr : Nat
  ip : Nat
  iterations : Nat
  interp_status : Int
  deriving DecidableEq, Repr

/-- How one pass through the loop body ends. -/
inductive Flow where
  /-- The body executed `break`. -/
  | brk (s : State)
  /-- The body executed `continue` or reached its end: the loop condition is
  tested again. -/
  | next (s : State)
  deriving DecidableEq, Repr

/-- Lines 95-118: the output write (`b < 0`) or the memory update, followed by
the branch.  `s` already holds the updated `iterations` and `in_ptr`. -/
def execute (code_length max_output_length : Nat) (s : State) (b c operand : Int) :
    Except Err Flow :=
  if b < 0 then
    let result := subLong 0 operand
    if s.out_size ≥ max_output_length then
      .ok (.brk { s with interp_status := -1 })
    else if s.out_size < s.output.length then
      let s1 : State := { s with output := s.output.set s.out_size result, out_size := s.out_size + 1 }
      if result ≤ 0 then
        .ok (.next { s1 with ip := c.toNat })
      else
        .ok (.next { s1 with ip := s1.ip + 3 })
    else
      .error .OutOfBounds
  else
    if b.toNat ≥ code_length then
      .ok (.brk { s with interp_status := -1 })
    else
      match s.mem[b.toNat]? with
      | some mb =>
        let s1 : State := { s with mem := s.mem.set b.toNat (subLong mb operand) }
        match s1.mem[b.toNat]? with
        | some mb1 =>
          if mb1 ≤ 0 then
            .ok (.next { s1 with ip := c.toNat })
          else
            .ok (.next { s1 with ip := s1.ip + 3 })
        | none => .error .OutOfBounds
      | none => .error .OutOfBounds

/-- Lines 64-118: one pass through the body of the `while` loop. -/
def loop_body (code_length : Nat) (input : List Int) (max_output_length max_iter : Nat)
    (s : State) : Except Err Flow :=
  if s.iterations ≥ max_iter then
    .ok (.brk { s with interp_status := -1 })
  else
    let s : State := { s with iterations := s.iterations + 1 }
    if s.ip + 2 ≥ code_length then
      .ok (.brk s)
    else
      match s.mem[s.ip]?, s.mem[s.ip + 1]?, s.mem[s.ip + 2]? with
      | some a, some b, some c =>
        if c < 0 then
          .ok (.brk s)
        else if a < 0 then
          if s.in_ptr < input.length then
            match input[s.in_ptr]? with
            | some operand =>
              execute code_length max_output_length { s with in_ptr := s.in_ptr + 1 } b c operand
            | none => .error .OutOfBounds
          else
            execute code_length max_output_length s b c 0
        else
          if a.toNat ≥ code_length then
            .ok (.brk { s with interp_status := -1 })
          else
            match s.mem[a.toNat]? with
            | some operand => execute code_length max_output_length s b c operand
            | none => .error .OutOfBounds
      | _, _, _ => .error .OutOfBounds

/-- Lines 63-119: the `while (ip < code_length)` loop.  Every test of the loop
condition uses one unit of fuel. -/
def while_loop (code_length : Nat) (input : List Int) (max_output_length max_iter : Nat) :
    Nat → State → Except Err State
  | 0, _ => .error .OutOfFuel
  | fuel + 1, s =>
    if s.ip < code_length then
      match loop_body code_length input max_output_length max_iter s with
      | .ok (.brk s1) => .ok s1
      | .ok (.next s1) => while_loop code_length input max_output_length max_iter fuel s1
      | .error e => .error e
    else
      .ok s

/-- Lines 38-61: the state on entry to the loop.  The content of the freshly
allocated output buffer is indeterminate in C; no cell of it is returned
before it has been written, and the model fills it with zeros.  The buffer
has `max_output_length` cells; `init_alloc` sizes it from the byte count that
line 45 computes. -/
def init (code : List Int) (max_output_length : Nat) : State :=
  { mem := code
    output := List.replicate max_output_length 0
    out_size := 0
    in_ptr := 0
    ip := 0
    iterations := 0
    interp_status := 0 }

/-- What `subleq_interpreter` hands back: the returned array and the four out
parameters. -/
structure Result where
  /-- The `output_count` cells of the returned array. -/
  output : List Int
  output_count : Nat
  interp_status : Int
  final_mem_out : List Int
  final_mem_len_out : Nat
  deriving DecidableEq, Repr

/-- Lines 121-144: the final memory image is a copy of `code_length` cells of
`mem`; the returned array holds the first `out_size` cells of the output
buffer (when `out_size = 0` the buffer is returned unshrunk and none of its
cells is output). -/
def finish (code_length : Nat) (s : State) : Result :=
  { output := s.output.take s.out_size
    output_count := s.out_size
    interp_status := s.interp_status
    final_mem_out := s.mem.take code_length
    final_mem_len_out := code_length }

/-- The loop of `subleq_interpreter` run from the initial state, returning the
local variables at loop exit. -/
def subleq_loop (code input : List Int) (max_output_length max_iter : Nat) :
    Except Err State :=
  while_loop code.length input max_output_length max_iter (max_iter + 1)
    (init code max_output_length)

/-- The function `subleq_interpreter` (lines 33-145). -/
def subleq_interpreter (code input : List Int) (max_output_length max_iter : Nat) :
    Except Err Result :=
  match subleq_loop code input max_output_length max_iter with
  | .ok s => .ok (finish code.length s)
  | .error e => .error e

/-- The canonical echo program: read an input value negated into cell 9, emit
the negation of cell 9, clear cell 9, jump back to 0. -/
def echoProgram : List Int := [-1, 9, 3, 9, -1, 6, 9, 9, 0, 0]

/-- The state a pass through the loop body ends in. -/
def Flow.state : Flow → State
  | .brk s => s
  | .next s => s

/-- The facts about the local variables that hold at every test of the loop
condition: the two buffers keep their allocated sizes and the three counters
stay within their bounds. -/
structure Inv (code_length : Nat) (input : List Int) (max_output_length max_iter : Nat)
    (s : State) : Prop where
  mem_len : s.mem.length = code_length
  out_len : s.output.length = max_output_length
  out_size_le : s.out_size ≤ max_output_length
  iter_le : s.iterations ≤ max_iter
  in_ptr_le : s.in_ptr ≤ input.length
  status_ok : s.interp_status = Completed ∨ s.interp_status = Faulted

/-- Number of `long` cells in the block that `malloc(n * sizeof(long))`
returns (lines 38, 45): the byte count is a `size_t` product, which wraps
modulo `2^64`, and `sizeof(long)` is 8. -/
def malloc_cells (n : Nat) : Nat := (n * 8 % 18446744073709551616) / 8

/-- Lines 38-61 with the output buffer sized from the byte count that line 45
passes to `malloc`. -/
def init_alloc (code : List Int) (max_output_length : Nat) : State :=
  { mem := code
    output := List.replicate (malloc_cells max_output_length) 0
    out_size := 0
    in_ptr := 0
    ip := 0
    iterations := 0
    interp_status := 0 }

/-- The loop of `subleq_interpreter` run from `init_alloc`. -/
def subleq_loop_alloc (code input : List Int) (max_output_length max_iter : Nat) :
    Except Err State :=
  while_loop code.length input max_output_length max_iter (max_iter + 1)
    (init_alloc code max_output_length)

/-- The function `subleq_interpreter` (lines 33-145) with the output buffer
sized from the wrapped byte count. -/
def subleq_interpreter_alloc (code input : List Int) (max_output_length max_iter : Nat) :
    Except Err Result :=
  match subleq_loop_alloc code input max_output_length max_iter with
  | .ok s => .ok (finish code.length s)
  | .error e => .error e

/-! ## Sample runs -/

theorem echo_sample_run :
    subleq_interpreter echoProgram [5, -7, 0, 3] 4 14 =
      .ok ⟨[5, -7, 0, 3], 4, Faulted, echoProgram, 10⟩ := by
  decide

theorem echo_sample_run_long_min :
    subleq_interpreter echoProgram [-9223372036854775808, 9223372036854775807] 2 8 =
      .ok ⟨[-9223372036854775808, 9223372036854775807], 2, Faulted, echoProgram, 10⟩ := by
  decide

theorem bad_source_sample_run :
    subleq_interpreter [5, 0, 0] [] 2 3 = .ok ⟨[], 0, Faulted, [5, 0, 0], 3⟩ := by
  decide

/-! ## The loop invariant -/

theorem init_inv (code input : List Int) (m k : Nat) :
    Inv code.length input m k (init code m) :=
  ⟨rfl, by simp [init], Nat.zero_le _, Nat.zero_le _, Nat.zero_le _, Or.inl rfl⟩

theorem execute_ok (cl m : Nat) (s : State) (b c op : Int)
    (hm : s.mem.length = cl) (ho : s.output.length = m) (hs : s.out_size ≤ m) :
    ∃ f, execute cl m s b c op = .ok f ∧ f.state.mem.length = cl ∧
      f.state.output.length = m ∧ f.state.out_size ≤ m ∧
      f.state.iterations = s.iterations ∧ f.state.in_ptr = s.in_ptr ∧
      (f.state.interp_status = s.interp_status ∨ f.state.interp_status = Faulted) := by
  unfold execute
  by_cases hb : b < 0
  · rw [if_pos hb]
    by_cases hfull : s.out_size ≥ m
    · rw [if_pos hfull]
      exact ⟨_, rfl, hm, ho, hs, rfl, rfl, Or.inr rfl⟩
    · have hlt : s.out_size < s.output.length := by omega
      rw [if_neg hfull, if_pos hlt]
      have hs1 : s.out_size + 1 ≤ m := by omega
      by_cases hr : subLong 0 op ≤ 0
      · simp only [hr, if_true]
        exact ⟨_, rfl, hm, by simp [Flow.state, ho], hs1, rfl, rfl, Or.inl rfl⟩
      · simp only [hr, if_false]
        exact ⟨_, rfl, hm, by simp [Flow.state, ho], hs1, rfl, rfl, Or.inl rfl⟩
  · rw [if_neg hb]
    by_cases hbo : b.toNat ≥ cl
    · rw [if_pos hbo]
      exact ⟨_, rfl, hm, ho, hs, rfl, rfl, Or.inr rfl⟩
    · have hlt : b.toNat < s.mem.length := by omega
      simp only [hbo, if_false, List.getElem?_eq_getElem hlt, List.getElem?_set_self, hlt]
      by_cases hr : subLong s.mem[b.toNat] op ≤ 0
      · simp only [hr, if_true]
        exact ⟨_, rfl, by simp [Flow.state, hm], ho, hs, rfl, rfl, Or.inl rfl⟩
      · simp only [hr, if_false]
        exact ⟨_, rfl, by simp [Flow.state, hm], ho, hs, rfl, rfl, Or.inl rfl⟩

theorem loop_body_ok (cl : Nat) (input : List Int) (m k : Nat) (s : State)
    (hinv : Inv cl input m k s) :
    ∃ f, loop_body cl input m k s = .ok f ∧ Inv cl input m k f.state ∧
      ∀ s1, f = .next s1 → s1.iterations = s.iterations + 1 := by
  obtain ⟨hm, ho, hs, hi, hp, hst⟩ := hinv
  unfold loop_body
  by_cases hk : s.iterations ≥ k
  · rw [if_pos hk]
    exact ⟨_, rfl, ⟨hm, ho, hs, hi, hp, Or.inr rfl⟩, by simp⟩
  · rw [if_neg hk]
    have hi1 : s.iterations + 1 ≤ k := by omega
    by_cases h2 : s.ip + 2 ≥ cl
    · simp only [h2, if_true]
      exact ⟨_, rfl, ⟨hm, ho, hs, hi1, hp, hst⟩, by simp⟩
    · have h0 : s.ip < s.mem.length := by omega
      have h1 : s.ip + 1 < s.mem.length := by omega
      have h2l : s.ip + 2 < s.mem.length := by omega
      simp only [h2, if_false, List.getElem?_eq_getElem h0, List.getElem?_eq_getElem h1,
        List.getElem?_eq_getElem h2l]
      by_cases hc : s.mem[s.ip + 2] < 0
      · simp only [hc, if_true]
        exact ⟨_, rfl, ⟨hm, ho, hs, hi1, hp, hst⟩, by simp⟩
      · simp only [hc, if_false]
        have key : ∀ (s0 : State) (op : Int), s0.mem.length = cl → s0.output.length = m →
            s0.out_size ≤ m → s0.iterations = s.iterations + 1 → s0.in_ptr ≤ input.length →
            s0.interp_status = s.interp_status →
            ∃ f, execute cl m s0 s.mem[s.ip + 1] s.mem[s.ip + 2] op = .ok f ∧
              Inv cl input m k f.state ∧
              ∀ s1, f = .next s1 → s1.iterations = s.iterations + 1 := by
          intro s0 op h1 h2 h3 h4 h5 h6
          obtain ⟨f, hf, g1, g2, g3, g4, g5, g6⟩ := execute_ok cl m s0 s.mem[s.ip + 1] s.mem[s.ip + 2] op h1 h2 h3
          refine ⟨f, hf, ⟨g1, g2, g3, by omega, by omega, ?_⟩, ?_⟩
          · rcases g6 with g6 | g6
            · rw [g6, h6]; exact hst
            · exact Or.inr g6
          intro s1 hs1
          subst hs1
          simpa [Flow.state, h4] using g4
        by_cases ha : s.mem[s.ip] < 0
        · simp only [ha, if_true]
          by_cases hin : s.in_ptr < input.length
          · simp only [hin, if_true, List.getElem?_eq_getElem hin]
            exact key _ _ hm ho hs rfl hin rfl
          · simp only [hin, if_false]
            exact key _ _ hm ho hs rfl hp rfl
        · simp only [ha, if_false]
          by_cases hao : s.mem[s.ip].toNat ≥ cl
          · simp only [hao, if_true]
            exact ⟨_, rfl, ⟨hm, ho, hs, hi1, hp, Or.inr rfl⟩, by simp⟩
          · have hal : s.mem[s.ip].toNat < s.mem.length := by omega
            simp only [hao, if_false, List.getElem?_eq_getElem hal]
            exact key _ _ hm ho hs rfl hp rfl

theorem while_loop_total (cl : Nat) (input : List Int) (m k : Nat) :
    ∀ (fuel : Nat) (s : State), Inv cl input m k s → k < fuel + s.iterations →
      ∃ s1, while_loop cl input m k fuel s = .ok s1 ∧ Inv cl input m k s1 := by
  intro fuel
  induction fuel with
  | zero =>
    intro s hinv hf
    have := hinv.iter_le
    omega
  | succ n ih =>
    intro s hinv hf
    unfold while_loop
    by_cases hip : s.ip < cl
    · rw [if_pos hip]
      obtain ⟨f, hf1, hf2, hf3⟩ := loop_body_ok cl input m k s hinv
      rw [hf1]
      cases f with
      | brk s1 => exact ⟨s1, rfl, hf2⟩
      | next s1 =>
        have := hf3 s1 rfl
        exact ih s1 hf2 (by omega)
    · rw [if_neg hip]
      exact ⟨s, rfl, hinv⟩

theorem subleq_loop_ok (code input : List Int) (m k : Nat) :
    ∃ s, subleq_loop code input m k = .ok s ∧ Inv code.length input m k s :=
  while_loop_total code.length input m k (k + 1) (init code m) (init_inv code input m k)
    (by simp [init])

theorem subleq_interpreter_ok (code input : List Int) (m k : Nat) :
    ∃ s, subleq_loop code input m k = .ok s ∧ Inv code.length input m k s ∧
      subleq_interpreter code input m k = .ok (finish code.length s) := by
  obtain ⟨s, hs, hinv⟩ := subleq_loop_ok code input m k
  exact ⟨s, hs, hinv, by simp [subleq_interpreter, hs]⟩

/-! ## Short programs and a zero iteration cap -/

/-- C1 (as stated, refuted): for the one-cell program `[7]` with
`max_iterations = 0` the loop is entered, the iteration cap is hit at once and
the status is Faulted, not Completed. -/
theorem C1_short_program_counterexample :
    ([7] : List Int).length < 3 ∧
      subleq_interpreter [7] [] 0 0 = .ok ⟨[], 0, Faulted, [7], 1⟩ ∧
      subleq_interpreter [7] [] 0 0 ≠ .ok ⟨[], 0, Completed, [7], 1⟩ := by
  decide

/-- C1 (amended): for every program of length less than 3, every input and
every pair of caps, `subleq_interpreter` returns an empty output and a final
memory equal to the program; the status is Completed when the program is empty
or `max_iterations ≥ 1`, and Faulted when the program has one or two cells and
`max_iterations = 0`. -/
theorem C1_short_program (code input : List Int) (m k : Nat) (hlen : code.length < 3) :
    subleq_interpreter code input m k =
      .ok ⟨[], 0, if code.length = 0 ∨ 1 ≤ k then Completed else Faulted, code, code.length⟩ := by
  match code, hlen with
  | [], _ => simp [subleq_interpreter, subleq_loop, while_loop, init, finish, Completed]
  | [x], _ =>
    cases k with
    | zero => simp [subleq_interpreter, subleq_loop, while_loop, loop_body, init, finish, Faulted]
    | succ n =>
      simp [subleq_interpreter, subleq_loop, while_loop, loop_body, init, finish, Completed]
  | [x, y], _ =>
    cases k with
    | zero => simp [subleq_interpreter, subleq_loop, while_loop, loop_body, init, finish, Faulted]
    | succ n =>
      simp [subleq_interpreter, subleq_loop, while_loop, loop_body, init, finish, Completed]

/-- Witness for `C1_short_program`: the two-cell program `[4, -2]` run with
`max_iterations = 5`. -/
theorem C1_short_program_witness :
    ([4, -2] : List Int).length < 3 ∧
      subleq_interpreter [4, -2] [1] 3 5 = .ok ⟨[], 0, Completed, [4, -2], 2⟩ :=
  ⟨by decide, C1_short_program [4, -2] [1] 3 5 (by decide)⟩

/-- C2: with `max_iterations = 0` no instruction is attempted (the iteration
counter is still 0 at loop exit), the output is empty and the final memory is
the program; the status is Completed for the empty program and Faulted for a
program with at least one cell. -/
theorem C2_zero_iterations (code input : List Int) (m : Nat) :
    (∃ s, subleq_loop code input m 0 = .ok s ∧ s.iterations = 0) ∧
      subleq_interpreter code input m 0 =
        .ok ⟨[], 0, if code.length = 0 then Completed else Faulted, code, code.length⟩ := by
  by_cases h : 0 < code.length
  · have h0 : code.length ≠ 0 := by omega
    have h1 : code ≠ [] := by intro hc; simp [hc] at h
    simp [subleq_interpreter, subleq_loop, while_loop, loop_body, init, finish, Faulted, h, h1]
  · have h0 : code = [] := by
      cases code with
      | nil => rfl
      | cons x xs => simp at h
    subst h0
    simp [subleq_interpreter, subleq_loop, while_loop, init, finish, Completed]

/-! ## Bounds that hold on every run -/

/-- C7: with `max_output_length = 0` the first attempted output write faults:
for a program `a :: b :: c :: rest` (length `N = rest.length + 3`) with
`c ≥ 0`, `b < 0` and `a` negative or a valid index (`a < N`), every input and
every `max_iterations ≥ 1`, the run returns status Faulted, an empty output
and a final memory equal to the program. -/
theorem C7_zero_output_cap_faults (a b c : Int) (rest input : List Int) (k : Nat)
    (hc : 0 ≤ c) (hb : b < 0) (ha : a < 0 ∨ a < ((a :: b :: c :: rest).length : Int))
    (hk : 1 ≤ k) :
    subleq_interpreter (a :: b :: c :: rest) input 0 k =
      .ok ⟨[], 0, Faulted, a :: b :: c :: rest, (a :: b :: c :: rest).length⟩ := by
  obtain ⟨n, rfl⟩ : ∃ n, k = n + 1 := ⟨k - 1, by omega⟩
  have hc' : ¬ c < 0 := by omega
  by_cases ha0 : a < 0
  · by_cases hin : 0 < input.length
    · have hin' : input ≠ [] := by intro h; simp [h] at hin
      simp [subleq_interpreter, subleq_loop, while_loop, loop_body, execute, init, finish,
        Faulted, hc', hb, ha0, hin, hin', List.getElem?_eq_getElem hin]
    · have hin' : input = [] := by
        cases input with
        | nil => rfl
        | cons x xs => simp at hin
      simp [subleq_interpreter, subleq_loop, while_loop, loop_body, execute, init, finish,
        Faulted, hc', hb, ha0, hin']
  · have hlt : a.toNat < (a :: b :: c :: rest).length := by
      rcases ha with ha | ha
      · omega
      · omega
    have hlt' : a.toNat < rest.length + 1 + 1 + 1 := by simpa using hlt
    simp [subleq_interpreter, subleq_loop, while_loop, loop_body, execute, init, finish,
      Faulted, hc', hb, ha0, hlt', List.getElem?_eq_getElem hlt]

/-- Witness for `C7_zero_output_cap_faults`: the program `[-1, -1, 0]` asks
for an output write at once. -/
theorem C7_zero_output_cap_faults_witness :
    (0 : Int) ≤ 0 ∧ (-1 : Int) < 0 ∧ 1 ≤ 2 ∧
      subleq_interpreter [-1, -1, 0] [5] 0 2 = .ok ⟨[], 0, Faulted, [-1, -1, 0], 3⟩ :=
  ⟨by decide, by decide, by decide,
    C7_zero_output_cap_faults (-1) (-1) 0 [] [5] 2 (by decide) (by decide)
      (Or.inl (by decide)) (by decide)⟩

/-- C8: a halt instruction is never executed: for a program
`a :: b :: c :: rest` with `c < 0`, whatever `a` and `b` are, every input,
every `max_output_length` and every `max_iterations ≥ 1`, the run returns
status Completed, an empty output and a final memory equal to the program. -/
theorem C8_halt_not_executed (a b c : Int) (rest input : List Int) (m k : Nat)
    (hc : c < 0) (hk : 1 ≤ k) :
    subleq_interpreter (a :: b :: c :: rest) input m k =
      .ok ⟨[], 0, Completed, a :: b :: c :: rest, (a :: b :: c :: rest).length⟩ := by
  obtain ⟨n, rfl⟩ : ∃ n, k = n + 1 := ⟨k - 1, by omega⟩
  simp [subleq_interpreter, subleq_loop, while_loop, loop_body, init, finish, Completed, hc]

/-- Witness for `C8_halt_not_executed`: the program `[0, 0, -1]` of the
specification; cell 0 is not decremented. -/
theorem C8_halt_not_executed_witness :
    (-1 : Int) < 0 ∧ 1 ≤ 1 ∧
      subleq_interpreter [0, 0, -1] [] 4 1 = .ok ⟨[], 0, Completed, [0, 0, -1], 3⟩ :=
  ⟨by decide, by decide, C8_halt_not_executed 0 0 (-1) [] [] 4 1 (by decide) (by decide)⟩

/-- C10: an out-of-bounds address faults without changing anything: for a
program `a :: b :: c :: rest` (length `N`) with `c ≥ 0` and either `a ≥ N`, or
`b ≥ N` with `a` negative or `a < N`, every input, every `max_output_length`
and every `max_iterations ≥ 1`, the run returns status Faulted, an empty
output and a final memory equal to the program. -/
theorem C10_out_of_bounds_faults (a b c : Int) (rest input : List Int) (m k : Nat)
    (hc : 0 ≤ c)
    (hab : ((a :: b :: c :: rest).length : Int) ≤ a ∨
      (((a :: b :: c :: rest).length : Int) ≤ b ∧
        (a < 0 ∨ a < ((a :: b :: c :: rest).length : Int))))
    (hk : 1 ≤ k) :
    subleq_interpreter (a :: b :: c :: rest) input m k =
      .ok ⟨[], 0, Faulted, a :: b :: c :: rest, (a :: b :: c :: rest).length⟩ := by
  obtain ⟨n, rfl⟩ : ∃ n, k = n + 1 := ⟨k - 1, by omega⟩
  have hc' : ¬ c < 0 := by omega
  have hlen : (a :: b :: c :: rest).length = rest.length + 1 + 1 + 1 := by simp
  by_cases hbig : ((a :: b :: c :: rest).length : Int) ≤ a
  · have ha0 : ¬ a < 0 := by omega
    have hge : rest.length + 1 + 1 + 1 ≤ a.toNat := by omega
    simp [subleq_interpreter, subleq_loop, while_loop, loop_body, init, finish,
      Faulted, hc', ha0, hge]
  · obtain ⟨hb, ha⟩ : ((a :: b :: c :: rest).length : Int) ≤ b ∧
        (a < 0 ∨ a < ((a :: b :: c :: rest).length : Int)) := by
      rcases hab with h | h
      · exact absurd h hbig
      · exact h
    have hb0 : ¬ b < 0 := by omega
    have hbge : rest.length + 1 + 1 + 1 ≤ b.toNat := by omega
    by_cases ha0 : a < 0
    · by_cases hin : 0 < input.length
      · have hin' : input ≠ [] := by intro h; simp [h] at hin
        simp [subleq_interpreter, subleq_loop, while_loop, loop_body, execute, init, finish,
          Faulted, hc', hb0, hbge, ha0, hin, hin', List.getElem?_eq_getElem hin]
      · have hin' : input = [] := by
          cases input with
          | nil => rfl
          | cons x xs => simp at hin
        simp [subleq_interpreter, subleq_loop, while_loop, loop_body, execute, init, finish,
          Faulted, hc', hb0, hbge, ha0, hin']
    · have hlt : a.toNat < (a :: b :: c :: rest).length := by omega
      have hlt' : a.toNat < rest.length + 1 + 1 + 1 := by omega
      simp [subleq_interpreter, subleq_loop, while_loop, loop_body, execute, init, finish,
        Faulted, hc', hb0, hbge, ha0, hlt', List.getElem?_eq_getElem hlt]

/-- Witness for `C10_out_of_bounds_faults`: a bad destination, `b = 7` in a
three-cell program. -/
theorem C10_out_of_bounds_faults_witness :
    (0 : Int) ≤ 0 ∧ (3 : Int) ≤ 7 ∧ (0 : Int) < 3 ∧ 1 ≤ 3 ∧
      subleq_interpreter [0, 7, 0] [] 2 3 = .ok ⟨[], 0, Faulted, [0, 7, 0], 3⟩ :=
  ⟨by decide, by decide, by decide, by decide,
    C10_out_of_bounds_faults 0 7 0 [] [] 2 3 (by decide)
      (Or.inr ⟨by decide, Or.inr (by decide)⟩) (by decide)⟩

/-! ## The echo program -/

theorem wrapLong_of_isLong (x : Int) (h : isLong x) : wrapLong x = x := by
  unfold isLong at h
  unfold wrapLong
  omega

theorem subLong_self (x : Int) : subLong x x = 0 := by
  simp [subLong, wrapLong]

theorem subLong_zero_zero (x : Int) (h : isLong x) : subLong 0 (subLong 0 x) = x := by
  unfold isLong at h
  unfold subLong wrapLong
  omega

theorem echo_round (input output : List Int) (k fuel p it : Nat) (x : Int)
    (hx : isLong x) (hp : p < input.length) (hget : input[p]? = some x)
    (hout : p < output.length) (hit : it + 3 ≤ k) :
    while_loop 10 input output.length k (fuel + 3) ⟨echoProgram, output, p, p, 0, it, 0⟩ =
      while_loop 10 input output.length k fuel
        ⟨echoProgram, output.set p x, p + 1, p + 1, 0, it + 3, 0⟩ := by
  have h1 : ¬ k ≤ it := by omega
  have h2 : ¬ k ≤ it + 1 := by omega
  have h3 : ¬ k ≤ it + 2 := by omega
  have h4 : ¬ output.length ≤ p := by omega
  simp [while_loop, loop_body, execute, echoProgram, h1, h2, h3, h4, hp, hget, hout,
    subLong_self, subLong_zero_zero x hx]

theorem echo_tail (input output : List Int) (k fuel it : Nat)
    (hlen : output.length = input.length) (hit : it + 2 ≤ k) :
    while_loop 10 input output.length k (fuel + 2)
        ⟨echoProgram, output, input.length, input.length, 0, it, 0⟩ =
      .ok ⟨echoProgram, output, input.length, input.length, 3, it + 2, -1⟩ := by
  have h1 : ¬ k ≤ it := by omega
  have h2 : ¬ k ≤ it + 1 := by omega
  simp [while_loop, loop_body, execute, echoProgram, h1, h2, hlen, subLong_self]

theorem take_succ_set (l : List Int) (p : Nat) (x : Int) (h : p < l.length) :
    (l.set p x).take (p + 1) = l.take p ++ [x] := by
  induction l generalizing p with
  | nil => simp at h
  | cons y ys ih =>
    cases p with
    | zero => simp
    | succ q =>
      have hq : q < ys.length := by simpa using h
      simpa using ih q hq

theorem echo_run (input : List Int) (k : Nat) (hin : ∀ x ∈ input, isLong x) :
    ∀ (rem p it fuel : Nat) (output : List Int), p + rem = input.length →
      output.length = input.length → it + 3 * rem + 2 ≤ k →
      while_loop 10 input output.length k (fuel + 3 * rem + 2)
          ⟨echoProgram, output, p, p, 0, it, 0⟩ =
        .ok ⟨echoProgram, output.take p ++ input.drop p, input.length, input.length, 3,
          it + 3 * rem + 2, -1⟩ := by
  intro rem
  induction rem with
  | zero =>
    intro p it fuel output hp hlen hit
    have hp' : p = input.length := by omega
    subst hp'
    rw [List.take_of_length_le (by omega), List.drop_of_length_le (by omega),
      List.append_nil]
    exact echo_tail input output k fuel it hlen (by omega)
  | succ r ih =>
    intro p it fuel output hp hlen hit
    have hlt : p < input.length := by omega
    have hfuel : fuel + 3 * (r + 1) + 2 = (fuel + 3 * r + 2) + 3 := by ring
    have hx : isLong input[p] := hin _ (List.getElem_mem hlt)
    rw [hfuel, echo_round input output k _ p it input[p] hx hlt
      (List.getElem?_eq_getElem hlt) (by omega) (by omega)]
    have hlen' : (output.set p input[p]).length = input.length := by simpa using hlen
    have hl : output.length = (output.set p input[p]).length := by simp
    rw [hl, ih (p + 1) (it + 3) fuel (output.set p input[p]) (by omega) hlen' (by omega)]
    have hout : (output.set p input[p]).take (p + 1) ++ input.drop (p + 1) =
        output.take p ++ input.drop p := by
      rw [take_succ_set output p input[p] (by omega), List.drop_eq_getElem_cons hlt]
      simp
    rw [hout]
    have hit' : it + 3 + 3 * r + 2 = it + 3 * (r + 1) + 2 := by ring
    rw [hit']

/-- C9: the echo program `[-1,9,3, 9,-1,6, 9,9,0, 0]` copies the input to the
output unchanged: for every input of `long` values, of length `n`, with
`max_output_length = n` and every `max_iterations ≥ 3n + 2`, the returned
output equals the input element for element and the final memory equals the
program (the run stops, Faulted, on the write that would exceed the output
cap). -/
theorem C9_echo_copies_input (input : List Int) (k : Nat)
    (hin : ∀ x ∈ input, isLong x) (hk : 3 * input.length + 2 ≤ k) :
    subleq_interpreter echoProgram input input.length k =
      .ok ⟨input, input.length, Faulted, echoProgram, echoProgram.length⟩ := by
  have hfuel : k + 1 = (k + 1 - (3 * input.length + 2)) + 3 * input.length + 2 := by omega
  have hrun := echo_run input k hin input.length 0 0 (k + 1 - (3 * input.length + 2))
    (List.replicate input.length 0) (by simp) (by simp) (by omega)
  rw [← hfuel] at hrun
  simp only [List.length_replicate] at hrun
  have hloop : subleq_loop echoProgram input input.length k =
      .ok ⟨echoProgram, input, input.length, input.length, 3, 3 * input.length + 2, -1⟩ := by
    unfold subleq_loop init
    simpa [echoProgram] using hrun
  unfold subleq_interpreter
  rw [hloop]
  simp [finish, Faulted, echoProgram]

/-- Witness for `C9_echo_copies_input`: the input `[5, -7, 0, 3]` with
`max_iterations = 14`. -/
theorem C9_echo_copies_input_witness :
    3 * ([5, -7, 0, 3] : List Int).length + 2 ≤ 14 ∧
      subleq_interpreter echoProgram [5, -7, 0, 3] 4 14 =
        .ok ⟨[5, -7, 0, 3], 4, Faulted, echoProgram, 10⟩ :=
  ⟨by decide, C9_echo_copies_input [5, -7, 0, 3] 14 (by decide) (by decide)⟩

/-! ## One instruction, run with an iteration cap of 1 -/

theorem subLong_of_isLong (x y : Int) (h : isLong (x - y)) : subLong x y = x - y :=
  wrapLong_of_isLong (x - y) h

theorem while_loop_in_bounds (cl : Nat) (input : List Int) (m k : Nat) :
    ∀ (fuel : Nat) (s : State), Inv cl input m k s →
      while_loop cl input m k fuel s ≠ .error .OutOfBounds := by
  intro fuel
  induction fuel with
  | zero =>
    intro s _
    simp [while_loop]
  | succ n ih =>
    intro s hinv
    unfold while_loop
    by_cases hip : s.ip < cl
    · rw [if_pos hip]
      obtain ⟨f, hf1, hf2, _⟩ := loop_body_ok cl input m k s hinv
      rw [hf1]
      cases f with
      | brk s1 => simp
      | next s1 => exact ih s1 hf2
    · rw [if_neg hip]
      simp

theorem init_accesses_in_bounds (code input : List Int) (m k : Nat) :
    (∀ fuel : Nat,
        while_loop code.length input m k fuel (init code m) ≠ .error .OutOfBounds) ∧
      subleq_interpreter code input m k ≠ .error .OutOfBounds ∧
      ∃ r, subleq_interpreter code input m k = .ok r := by
  obtain ⟨s, _, _, hr⟩ := subleq_interpreter_ok code input m k
  refine ⟨fun fuel => while_loop_in_bounds _ _ _ _ fuel _ (init_inv code input m k), ?_,
    _, hr⟩
  rw [hr]
  simp

theorem malloc_cells_eq (n : Nat) (h : n < 2305843009213693952) : malloc_cells n = n := by
  unfold malloc_cells
  omega

theorem init_alloc_eq_init (code : List Int) (m : Nat) (h : m < 2305843009213693952) :
    init_alloc code m = init code m := by
  simp [init_alloc, init, malloc_cells_eq m h]

theorem subleq_interpreter_alloc_eq (code input : List Int) (m k : Nat)
    (h : m < 2305843009213693952) :
    subleq_interpreter_alloc code input m k = subleq_interpreter code input m k := by
  simp [subleq_interpreter_alloc, subleq_interpreter, subleq_loop_alloc, subleq_loop,
    init_alloc_eq_init code m h]

theorem alloc_accesses_in_bounds (code input : List Int) (m k : Nat)
    (h : m < 2305843009213693952) :
    (∀ fuel : Nat,
        while_loop code.length input m k fuel (init_alloc code m) ≠ .error .OutOfBounds) ∧
      ∃ r, subleq_interpreter_alloc code input m k = .ok r := by
  rw [init_alloc_eq_init code m h, subleq_interpreter_alloc_eq code input m k h]
  obtain ⟨h1, _, h3⟩ := init_accesses_in_bounds code input m k
  exact ⟨h1, h3⟩

/-- C13 (code defect): not every array access of the loop is in bounds.  With
`max_output_length = 2^61` the byte count `max_output_length * sizeof(long)`
of line 45 wraps to 0, so the output block has no cell; the program
`[-1, -1, 0]` on input `[-5]` with `max_iterations = 1` passes the guard of
line 97 (`0 < 2^61`) and writes `output[0]` on line 101, outside the block.
For `max_output_length < 2^61` every access is in bounds
(`alloc_accesses_in_bounds`). -/
theorem C13_output_write_out_of_bounds :
    malloc_cells 2305843009213693952 = 0 ∧
      subleq_loop_alloc [-1, -1, 0] [-5] 2305843009213693952 1 = .error .OutOfBounds ∧
      subleq_interpreter_alloc [-1, -1, 0] [-5] 2305843009213693952 1 =
        .error .OutOfBounds := by
  decide

/-! ## The part of the input a run can read -/

end Subleq
